import Mathlib

/-!
Verification of the dashboard core of the ai-summarizer repository:
the liveness registry (`src/dashboard/src/registry.rs`), the metric store
(`src/dashboard/src/metrics.rs`), the chart bucketing algorithm
(`src/dashboard/src/charts.rs`, `src/dashboard/src/charts/svg.rs`) and the
background retention pruner (`src/dashboard/src/background.rs`).

Modelling conventions:
- `DateTime<Utc>` timestamps and `chrono::Duration` values are modelled as
  `Int` numbers of seconds.  Rust `i64` division truncates toward zero, which
  is `Int.tdiv`.
- `f64` metric values are modelled as `Rat`.
- `HashMap` keyed state is modelled as an association list whose keys are
  unique; hash order is irrelevant to every property proved here.
- Durable-storage side effects (`storage::append_line`, `rewrite_lines`,
  `remove_bot_file`) are modelled by returning the list of keys each call
  set receives; the storage module itself is specified only abstractly
  (append / rewrite / delete per agent key).
-/

set_option linter.unusedVariables false

namespace AiSummarizer

/-- One metric event, from `MetricEvent` in `src/dashboard/src/metrics.rs`.
Tags are an association list standing for the `HashMap<String, String>`. -/
structure MetricEvent where
  event_id : String
  value : Option Rat
  tags : List (String × String)
  timestamp : Int
deriving DecidableEq

/-- A time bucket spanning `[start, stop)`, from `TimeBucket` in
`src/dashboard/src/charts.rs` (the source calls the second field `end`,
which is a reserved word in Lean). -/
structure TimeBucket where
  start : Int
  stop : Int
deriving DecidableEq

/-- `compute_time_buckets` from `src/dashboard/src/charts.rs`:
`bucket_secs = max(total_secs / num_buckets, min_bucket_secs)` and
`actual_buckets = max(total_secs / bucket_secs, 1)`, then one bucket per
index.  `Int.tdiv` is Rust `i64` division (truncation toward zero). -/
def compute_time_buckets (start stop : Int) (num_buckets : Nat)
    (min_bucket_secs : Int) : List TimeBucket :=
  let total_secs := stop - start
  let bucket_secs := max (Int.tdiv total_secs (num_buckets : Int)) min_bucket_secs
  let actual_buckets := (max (Int.tdiv total_secs bucket_secs) 1).toNat
  (List.range actual_buckets).map (fun i =>
    { start := start + bucket_secs * Int.ofNat i
      stop := start + bucket_secs * (Int.ofNat i + 1) })

/-- The divisions performed by `compute_time_buckets` (and repeated verbatim
at the top of `bucket_events`) have nonzero divisors: the first division is
by `num_buckets`, the second (and the per-event one in `bucket_events`) is
by `bucket_secs = max(total_secs / num_buckets, min_bucket_secs)`.
In Rust an integer division by zero panics. -/
def bucketing_divisors_nonzero (start stop : Int) (num_buckets : Nat)
    (min_bucket_secs : Int) : Prop :=
  (num_buckets : Int) ≠ 0 ∧
    max (Int.tdiv (stop - start) (num_buckets : Int)) min_bucket_secs ≠ 0

instance (start stop : Int) (num_buckets : Nat) (min_bucket_secs : Int) :
    Decidable (bucketing_divisors_nonzero start stop num_buckets min_bucket_secs) :=
  inferInstanceAs (Decidable (_ ∧ _))

/-- Helper for the `buckets[idx].1.push(event)` step of `bucket_events`:
append `e` to the event list of the bucket at position `i` (out-of-range `i`
leaves the list unchanged; the source index is always in range). -/
def push_at : Nat → MetricEvent → List (Int × List MetricEvent) →
    List (Int × List MetricEvent)
  | _, _, [] => []
  | 0, e, b :: rest => (b.1, b.2 ++ [e]) :: rest
  | Nat.succ j, e, b :: rest => b :: push_at j e rest

/-- The loop body of `bucket_events`: drop the event if `offset < 0`, else
push it into bucket `min(offset / bucket_secs, actual_buckets - 1)`. -/
def bucket_step (start bucket_secs : Int) (actual_buckets : Nat)
    (buckets : List (Int × List MetricEvent)) (event : MetricEvent) :
    List (Int × List MetricEvent) :=
  if event.timestamp - start < 0 then buckets
  else push_at
    (min (Int.tdiv (event.timestamp - start) bucket_secs).toNat (actual_buckets - 1))
    event buckets

/-- `bucket_events` from `src/dashboard/src/charts.rs`: recompute the bucket
width exactly as `compute_time_buckets` does, start from one empty event
list per time bucket, then fold `bucket_step` over the events in order
(`actual_buckets` is the number of time buckets). -/
def bucket_events (events : List MetricEvent) (start stop : Int)
    (num_buckets : Nat) (min_bucket_secs : Int) :
    List (Int × List MetricEvent) :=
  let time_buckets := compute_time_buckets start stop num_buckets min_bucket_secs
  let bucket_secs := max (Int.tdiv (stop - start) (num_buckets : Int)) min_bucket_secs
  let init := time_buckets.map (fun tb => (tb.start, ([] : List MetricEvent)))
  events.foldl (bucket_step start bucket_secs time_buckets.length) init

/-- Total number of events across all buckets. -/
def sum_lens (buckets : List (Int × List MetricEvent)) : Nat :=
  (buckets.map (fun b => b.2.length)).sum

/-- `aggregate_count` from `src/dashboard/src/charts.rs`. -/
def aggregate_count (buckets : List (Int × List MetricEvent)) :
    List (Int × Rat) :=
  buckets.map (fun b => (b.1, (b.2.length : Rat)))

/-- `aggregate_sum` from `src/dashboard/src/charts.rs`: sum of the present
values (`filter_map(|e| e.value)`). -/
def aggregate_sum (buckets : List (Int × List MetricEvent)) :
    List (Int × Rat) :=
  buckets.map (fun b => (b.1, (b.2.filterMap (fun e => e.value)).sum))

/-- `aggregate_average` from `src/dashboard/src/charts.rs`: mean of the
present values, with an explicit `0` result when no event in the bucket
carries a value. -/
def aggregate_average (buckets : List (Int × List MetricEvent)) :
    List (Int × Rat) :=
  buckets.map (fun b =>
    let values := b.2.filterMap (fun e => e.value)
    (b.1, if values.isEmpty then 0 else values.sum / (values.length : Rat)))

/-- The `total_secs` of `render_uptime_chart` in
`src/dashboard/src/charts/svg.rs`: `(end - start).num_seconds().max(1)`. -/
def total_secs_uptime (start stop : Int) : Int :=
  max (stop - start) 1

/-- The `bucket_secs` of `render_uptime_chart`:
`(total_secs / num_buckets).max(1)`. -/
def bucket_secs_uptime (start stop : Int) (num_buckets : Nat) : Int :=
  max (Int.tdiv (total_secs_uptime start stop) (num_buckets : Int)) 1

/-- The `actual_buckets` of `render_uptime_chart`:
`(total_secs / bucket_secs) as usize`. -/
def actual_buckets_uptime (start stop : Int) (num_buckets : Nat) : Nat :=
  (Int.tdiv (total_secs_uptime start stop)
    (bucket_secs_uptime start stop num_buckets)).toNat

/-- The loop body of `render_uptime_chart`: a heartbeat sets flag
`idx = offset / bucket_secs` only when `0 ≤ offset` and
`idx < actual_buckets` — there is no clamp into the last bucket. -/
def uptime_step (start bucket_secs : Int) (actual_buckets : Nat)
    (flags : List Bool) (ts : Int) : List Bool :=
  if ts - start < 0 then flags
  else if (Int.tdiv (ts - start) bucket_secs).toNat < actual_buckets then
    (flags.set (Int.tdiv (ts - start) bucket_secs).toNat true)
  else flags

/-- The per-bucket heartbeat flags of `render_uptime_chart`
(lines 31-45): fold `uptime_step` over the heartbeats starting from
all-false flags. -/
def uptime_has_heartbeat (heartbeats : List Int) (start stop : Int)
    (num_buckets : Nat) : List Bool :=
  heartbeats.foldl
    (uptime_step start (bucket_secs_uptime start stop num_buckets)
      (actual_buckets_uptime start stop num_buckets))
    (List.replicate (actual_buckets_uptime start stop num_buckets) false)

/-- The chart-level `any_heartbeats` check of `render_uptime_chart`
(line 47): inclusive on both ends of the window. -/
def uptime_any_heartbeats (heartbeats : List Int) (start stop : Int) : Bool :=
  heartbeats.any (fun ts => decide (start ≤ ts) && decide (ts ≤ stop))

/-- The end boundary of the final bucket of the uptime chart:
`start + bucket_secs * actual_buckets` with the widths computed exactly as
in `render_uptime_chart`. -/
def uptime_final_boundary (start stop : Int) (num_buckets : Nat) : Int :=
  start + bucket_secs_uptime start stop num_buckets *
    Int.tdiv (total_secs_uptime start stop)
      (bucket_secs_uptime start stop num_buckets)

/-- One liveness record, from `BotInfo` in `src/dashboard/src/registry.rs`.
The `VecDeque` history is a list, oldest first. -/
structure BotInfo where
  name : String
  last_heartbeat : Int
  heartbeat_history : List Int
deriving DecidableEq

/-- The `bots: HashMap<String, BotInfo>` field of `BotRegistry`, as an
association list with unique keys. -/
abbrev Registry := List (String × BotInfo)

/-- `HashMap::get` on an association list. -/
def lookup_key {β : Type} (name : String) : List (String × β) → Option β
  | [] => none
  | e :: rest => if e.1 = name then some e.2 else lookup_key name rest

/-- The key set of an association list. -/
def keys {β : Type} (m : List (String × β)) : List String :=
  m.map Prod.fst

/-- `BotRegistry::log_heartbeat`: `entry(name).or_insert(default)` then set
`last_heartbeat = now` and push `now` onto the history.  A fresh entry is
appended at the tail of the association list (hash order is irrelevant). -/
def log_heartbeat (now : Int) (name : String) : Registry → Registry
  | [] => [(name, { name := name, last_heartbeat := now, heartbeat_history := [now] })]
  | e :: rest =>
    if e.1 = name then
      (e.1, { e.2 with
        last_heartbeat := now
        heartbeat_history := e.2.heartbeat_history ++ [now] }) :: rest
    else
      e :: log_heartbeat now name rest

/-- `BotRegistry::ensure_registered`: create the record with empty history
and `last_heartbeat = now` only when the name is absent; an existing record
is left untouched. -/
def ensure_registered (now : Int) (name : String) : Registry → Registry
  | [] => [(name, { name := name, last_heartbeat := now, heartbeat_history := [] })]
  | e :: rest =>
    if e.1 = name then e :: rest
    else e :: ensure_registered now name rest

/-- `BotRegistry::remove` (in-memory part; the durable delete is the
`storage::remove_bot_file` call made unconditionally alongside it). -/
def registry_remove (name : String) (reg : Registry) : Registry :=
  reg.filter (fun e => decide (e.1 ≠ name))

/-- `BotRegistry::stale_bot_names`: names with
`last_heartbeat < now - max_age`. -/
def stale_bot_names (now max_age : Int) (reg : Registry) : List String :=
  (reg.filter (fun e => decide (e.2.last_heartbeat < now - max_age))).map Prod.fst

/-- The history-trimming loop of `BotRegistry::prune_heartbeat_history`:
`while front < cutoff { pop_front }`, i.e. drop the longest prefix of
entries `< cutoff`. -/
def trim_history (cutoff : Int) (info : BotInfo) : BotInfo :=
  { info with
    heartbeat_history := info.heartbeat_history.dropWhile (fun ts => decide (ts < cutoff)) }

/-- `BotRegistry::prune_heartbeat_history` with its storage side effects
made explicit.  Returns `(new registry, names whose durable file is deleted,
names whose durable file is rewritten)`:
1. trim every history to `cutoff = now - retention`, collecting in `dirty`
   the names whose history length changed;
2. remove every record whose (trimmed) history is empty, deleting its
   durable file;
3. rewrite the durable file of every `dirty` name still present. -/
def prune_heartbeat_history_full (now retention : Int) (reg : Registry) :
    Registry × List String × List String :=
  let cutoff := now - retention
  let trimmed : Registry := reg.map (fun e => (e.1, trim_history cutoff e.2))
  let dirty : List String :=
    (reg.filter (fun e =>
      decide ((trim_history cutoff e.2).heartbeat_history.length ≠
        e.2.heartbeat_history.length))).map Prod.fst
  let empty_bots : List String :=
    (trimmed.filter (fun e => e.2.heartbeat_history.isEmpty)).map Prod.fst
  let new_reg : Registry :=
    trimmed.filter (fun e => !e.2.heartbeat_history.isEmpty)
  let rewrites : List String :=
    dirty.filter (fun n => (lookup_key n new_reg).isSome)
  (new_reg, empty_bots, rewrites)

/-- The in-memory effect of `BotRegistry::prune_heartbeat_history`. -/
def prune_heartbeat_history (now retention : Int) (reg : Registry) : Registry :=
  (prune_heartbeat_history_full now retention reg).1

/-- The `metrics: HashMap<String, VecDeque<MetricEvent>>` field of
`MetricStore`, as an association list with unique keys. -/
abbrev MetricsMap := List (String × List MetricEvent)

/-- The per-event predicate of `MetricStore::query_window`: exact event-id
match, timestamp within `[start, stop]` inclusive, and every tag filter
present with exactly that value (`tags.get(k).is_some_and(|tv| tv == v)`). -/
def matches_query (ev_id : String) (start stop : Int)
    (tag_filters : List (String × String)) (e : MetricEvent) : Bool :=
  decide (e.event_id = ev_id) && decide (start ≤ e.timestamp) &&
    decide (e.timestamp ≤ stop) &&
    tag_filters.all (fun kv =>
      match lookup_key kv.1 e.tags with
      | some tv => decide (tv = kv.2)
      | none => false)

/-- `MetricStore::query_window`: empty for an unknown agent, otherwise the
stored events filtered by `matches_query` in storage order. -/
def query_window (store : MetricsMap) (bot_name ev_id : String)
    (start stop : Int) (tag_filters : List (String × String)) :
    List MetricEvent :=
  match lookup_key bot_name store with
  | none => []
  | some events => events.filter (matches_query ev_id start stop tag_filters)

/-- `MetricStore::prune` with its storage side effects made explicit.
Returns `(new store, names whose durable file is deleted, names whose
durable file is rewritten)`:
1. for each agent drop the longest prefix of events with
   `timestamp < cutoff`;
2. remove every agent whose sequence became empty, deleting its durable
   file;
3. rewrite the durable file of **every** remaining agent (the final loop
   iterates the whole map, with no dirty tracking). -/
def metrics_prune_full (now retention : Int) (store : MetricsMap) :
    MetricsMap × List String × List String :=
  let cutoff := now - retention
  let trimmed : MetricsMap := store.map (fun p =>
    (p.1, p.2.dropWhile (fun e => decide (e.timestamp < cutoff))))
  let empty_bots : List String :=
    (trimmed.filter (fun p => p.2.isEmpty)).map Prod.fst
  let new_store : MetricsMap := trimmed.filter (fun p => !p.2.isEmpty)
  let rewrites : List String := new_store.map Prod.fst
  (new_store, empty_bots, rewrites)

/-- `MetricStore::remove_bot` (in-memory part). -/
def metrics_remove_bot (name : String) (store : MetricsMap) : MetricsMap :=
  store.filter (fun p => decide (p.1 ≠ name))

/-- One iteration of the background pruning loop in
`src/dashboard/src/background.rs` (`BackgroundWorkers::on_liftoff`):
prune the registry history, compute the stale names from the pruned
registry, remove them from the registry, prune the metric store, then
remove the stale names from the metric store.  Returns the final registry,
the final metric store and the stale-name list that was applied to
`MetricStore::remove_bot`. -/
def background_cycle (now retention : Int) (reg : Registry)
    (metrics : MetricsMap) : Registry × MetricsMap × List String :=
  let reg1 := prune_heartbeat_history now retention reg
  let stale := stale_bot_names now retention reg1
  let reg2 := stale.foldl (fun r n => registry_remove n r) reg1
  let m1 := (metrics_prune_full now retention metrics).1
  let m2 := stale.foldl (fun m n => metrics_remove_bot n m) m1
  (reg2, m2, stale)

/-- The liveness-registry operations of the claim about registry
invariants: heartbeat logging, ensure-registered, history pruning and
explicit removal. -/
inductive RegOp where
  | logHeartbeat (name : String)
  | ensureRegistered (name : String)
  | pruneHistory (retention : Int)
  | removeName (name : String)

/-- Apply one registry operation at clock time `now`, threading a ghost map
from agent name to creation time (updated exactly when a record is
created). -/
def apply_reg_op (now : Int) (op : RegOp) (s : Registry × (String → Int)) :
    Registry × (String → Int) :=
  match op with
  | .logHeartbeat name =>
    (log_heartbeat now name s.1,
     if name ∈ keys s.1 then s.2 else fun n => if n = name then now else s.2 n)
  | .ensureRegistered name =>
    (ensure_registered now name s.1,
     if name ∈ keys s.1 then s.2 else fun n => if n = name then now else s.2 n)
  | .pruneHistory retention => (prune_heartbeat_history now retention s.1, s.2)
  | .removeName name => (registry_remove name s.1, s.2)

/-- Run a timed trace of registry operations. -/
def run_reg_trace (s : Registry × (String → Int)) :
    List (Int × RegOp) → Registry × (String → Int)
  | [] => s
  | (now, op) :: rest => run_reg_trace (apply_reg_op now op s) rest

/-- The clock value after a trace: the time of the last operation, or the
initial clock for an empty trace. -/
def trace_end_time (t0 : Int) (trace : List (Int × RegOp)) : Int :=
  trace.foldl (fun _ p => p.1) t0

/-- The registry record invariant of the data model: history sorted
ascending, every timestamp (and `last_heartbeat`) no later than the current
clock, `last_heartbeat` equal to the last history entry when the history is
non-empty, and equal to the record's creation time when it is empty. -/
def info_inv (now : Int) (created : String → Int) (e : String × BotInfo) : Prop :=
  List.Sorted (· ≤ ·) e.2.heartbeat_history ∧
  (∀ ts ∈ e.2.heartbeat_history, ts ≤ now) ∧
  e.2.last_heartbeat ≤ now ∧
  (e.2.heartbeat_history ≠ [] →
    e.2.heartbeat_history.getLast? = some e.2.last_heartbeat) ∧
  (e.2.heartbeat_history = [] → e.2.last_heartbeat = created e.1)

/-- The whole-registry invariant. -/
def registry_inv (now : Int) (created : String → Int) (reg : Registry) : Prop :=
  ∀ e ∈ reg, info_inv now created e

/-! Concrete fixtures used by witnesses and counterexamples. -/

/-- A registry holding one agent whose single heartbeat has aged out. -/
def reg_aged : Registry :=
  [("a", { name := "a", last_heartbeat := 0, heartbeat_history := [0] })]

/-- A metric store holding one recent event for the same agent. -/
def metrics_recent : MetricsMap :=
  [("a", [{ event_id := "ev", value := none, tags := [], timestamp := 95 }])]

/-- A registry whose agent has a recent heartbeat entry but a stale
`last_heartbeat` (the stale-fixture of the spec's testable properties). -/
def reg_stale_fix : Registry :=
  [("b", { name := "b", last_heartbeat := 0, heartbeat_history := [95] })]

/-- A metric store holding one recent event for agent `b`. -/
def metrics_stale_fix : MetricsMap :=
  [("b", [{ event_id := "ev", value := none, tags := [], timestamp := 95 }])]

/-- An ensure-registered record: empty history, recent `last_heartbeat`. -/
def info_empty_fix : BotInfo :=
  { name := "c", last_heartbeat := 99, heartbeat_history := [] }

/-- A registry with an ensure-registered agent: empty history, recent
`last_heartbeat`. -/
def reg_empty_history_fix : Registry :=
  [("c", info_empty_fix)]

/-- A recent event used by the no-trim fixture. -/
def ev_unchanged_fix : MetricEvent :=
  { event_id := "ev", value := none, tags := [], timestamp := 95 }

/-- A metric store whose only agent has nothing to trim. -/
def metrics_unchanged_fix : MetricsMap :=
  [("d", [ev_unchanged_fix])]

/-- A registry with a sorted two-entry history straddling the cutoff 90. -/
def reg_sorted_fix : Registry :=
  [("a", { name := "a", last_heartbeat := 95, heartbeat_history := [80, 95] })]

/-- A small metric store for query-window checks. -/
def store_query_fix : MetricsMap :=
  [("b1", [{ event_id := "lat", value := some 42, tags := [("host", "x")], timestamp := 10 },
           { event_id := "lat", value := some 7, tags := [], timestamp := 10 },
           { event_id := "other", value := none, tags := [("host", "x")], timestamp := 10 }])]

/-- The event of `store_query_fix` that matches event-id `lat`, window
`[0, 20]` and filter `host = x`. -/
def event_lat_fix : MetricEvent :=
  { event_id := "lat", value := some 42, tags := [("host", "x")], timestamp := 10 }

/-- Events with values 3 and 5 plus a valueless event. -/
def avg_evs_fix : List MetricEvent :=
  [{ event_id := "e", value := some 3, tags := [], timestamp := 1 },
   { event_id := "e", value := none, tags := [], timestamp := 2 },
   { event_id := "e", value := some 5, tags := [], timestamp := 3 }]

/-- Two buckets: one with two valued events, one with only a valueless
event. -/
def buckets_avg_fix : List (Int × List MetricEvent) :=
  [(0, avg_evs_fix),
   (60, [{ event_id := "e", value := none, tags := [], timestamp := 61 }])]

/-- A registry-operation trace: register, two heartbeats, register another. -/
def trace_fix : List (Int × RegOp) :=
  [(0, .ensureRegistered "a"), (5, .logHeartbeat "a"),
   (7, .logHeartbeat "a"), (9, .ensureRegistered "b")]

/-- The record that `trace_fix` leaves for agent `b`: empty history,
`last_heartbeat` equal to its creation time 9. -/
def entry_b_fix : String × BotInfo :=
  ("b", { name := "b", last_heartbeat := 9, heartbeat_history := [] })

/-- Three events: one at the window end, one before the window, one inside. -/
def events_window_fix : List MetricEvent :=
  [{ event_id := "e", value := none, tags := [], timestamp := 180 },
   { event_id := "e", value := none, tags := [], timestamp := -1 },
   { event_id := "e", value := none, tags := [], timestamp := 60 }]

/-! Helper lemmas. -/

theorem length_push_at (i : Nat) (e : MetricEvent)
    (B : List (Int × List MetricEvent)) : (push_at i e B).length = B.length := by
  induction B generalizing i with
  | nil => simp [push_at]
  | cons b rest ih => cases i <;> simp [push_at, ih]

theorem sum_lens_push_at (i : Nat) (e : MetricEvent)
    (B : List (Int × List MetricEvent)) (h : i < B.length) :
    sum_lens (push_at i e B) = sum_lens B + 1 := by
  induction B generalizing i with
  | nil => simp at h
  | cons b rest ih =>
    cases i with
    | zero =>
      simp only [push_at, sum_lens, List.map_cons, List.sum_cons,
        List.length_append, List.length_singleton]
      omega
    | succ j =>
      have hj : j < rest.length := by simpa using h
      have hrec := ih j hj
      simp only [push_at, sum_lens, List.map_cons, List.sum_cons] at hrec ⊢
      omega

theorem mem_push_at_of_mem (i : Nat) (e x : MetricEvent)
    (B : List (Int × List MetricEvent)) (h : ∃ b ∈ B, x ∈ b.2) :
    ∃ b ∈ push_at i e B, x ∈ b.2 := by
  induction B generalizing i with
  | nil => obtain ⟨b0, hb0, _⟩ := h; simp at hb0
  | cons b rest ih =>
    obtain ⟨b0, hb0, hx⟩ := h
    cases i with
    | zero =>
      simp only [push_at]
      rcases List.mem_cons.mp hb0 with h0 | h0
      · exact ⟨(b.1, b.2 ++ [e]), List.mem_cons_self _ _, by
          subst h0; exact List.mem_append_left _ hx⟩
      · exact ⟨b0, List.mem_cons_of_mem _ h0, hx⟩
    | succ j =>
      simp only [push_at]
      rcases List.mem_cons.mp hb0 with h0 | h0
      · exact ⟨b, List.mem_cons_self _ _, by subst h0; exact hx⟩
      · obtain ⟨b1, hb1, hx1⟩ := ih j ⟨b0, h0, hx⟩
        exact ⟨b1, List.mem_cons_of_mem _ hb1, hx1⟩

theorem self_mem_push_at (i : Nat) (e : MetricEvent)
    (B : List (Int × List MetricEvent)) (h : i < B.length) :
    ∃ b ∈ push_at i e B, e ∈ b.2 := by
  induction B generalizing i with
  | nil => simp at h
  | cons b rest ih =>
    cases i with
    | zero =>
      simp only [push_at]
      exact ⟨(b.1, b.2 ++ [e]), List.mem_cons_self _ _,
        List.mem_append_right _ (List.mem_singleton.mpr rfl)⟩
    | succ j =>
      simp only [push_at]
      have hj : j < rest.length := by simpa using h
      obtain ⟨b1, hb1, hx1⟩ := ih j hj
      exact ⟨b1, List.mem_cons_of_mem _ hb1, hx1⟩

theorem push_at_forall (i : Nat) (e : MetricEvent)
    (B : List (Int × List MetricEvent)) (P : MetricEvent → Prop)
    (hB : ∀ b ∈ B, ∀ x ∈ b.2, P x) (he : P e) :
    ∀ b ∈ push_at i e B, ∀ x ∈ b.2, P x := by
  induction B generalizing i with
  | nil => simp [push_at]
  | cons b rest ih =>
    cases i with
    | zero =>
      simp only [push_at]
      intro b1 hb1 x hx
      rcases List.mem_cons.mp hb1 with h1 | h1
      · subst h1
        rcases List.mem_append.mp hx with h2 | h2
        · exact hB b (List.mem_cons_self _ _) x h2
        · rwa [List.mem_singleton.mp h2]
      · exact hB b1 (List.mem_cons_of_mem _ h1) x hx
    | succ j =>
      simp only [push_at]
      intro b1 hb1 x hx
      rcases List.mem_cons.mp hb1 with h1 | h1
      · exact hB b (List.mem_cons_self _ _) x (h1 ▸ hx)
      · exact ih j (fun b2 hb2 => hB b2 (List.mem_cons_of_mem _ hb2)) b1 h1 x hx

theorem lookup_filter_ne {β : Type} (n k : String) (m : List (String × β)) :
    lookup_key n (m.filter (fun e => decide (e.1 ≠ k))) =
      if n = k then none else lookup_key n m := by
  induction m with
  | nil => simp [lookup_key]
  | cons e m ih =>
    rw [List.filter_cons]
    by_cases hek : e.1 = k
    · rw [if_neg (by simp [hek]), ih]
      by_cases hnk : n = k
      · rw [if_pos hnk, if_pos hnk]
      · have hen : ¬ e.1 = n := by rw [hek]; exact fun h => hnk h.symm
        rw [if_neg hnk, if_neg hnk]
        conv_rhs => rw [lookup_key, if_neg hen]
    · rw [if_pos (by simp [hek])]
      by_cases hen : e.1 = n
      · have hnk : ¬ n = k := fun h => hek (hen.trans h)
        rw [if_neg hnk]
        conv_lhs => rw [lookup_key, if_pos hen]
        conv_rhs => rw [lookup_key, if_pos hen]
      · conv_lhs => rw [lookup_key, if_neg hen]
        rw [ih]
        by_cases hnk : n = k
        · rw [if_pos hnk, if_pos hnk]
        · rw [if_neg hnk, if_neg hnk]
          conv_rhs => rw [lookup_key, if_neg hen]

theorem fold_remove_preserves_none {β : Type} (l : List String)
    (m : List (String × β)) (n : String) (h : lookup_key n m = none) :
    lookup_key n
      (l.foldl (fun acc k => acc.filter (fun e => decide (e.1 ≠ k))) m) = none := by
  induction l generalizing m with
  | nil => simpa using h
  | cons k l ih =>
    rw [List.foldl_cons]
    apply ih
    rw [lookup_filter_ne]
    split
    · rfl
    · exact h

theorem fold_remove_lookup_none {β : Type} (l : List String)
    (m : List (String × β)) (n : String) (h : n ∈ l) :
    lookup_key n
      (l.foldl (fun acc k => acc.filter (fun e => decide (e.1 ≠ k))) m) = none := by
  induction l generalizing m with
  | nil => simp at h
  | cons k l ih =>
    rw [List.foldl_cons]
    rcases List.mem_cons.mp h with h0 | h0
    · subst h0
      apply fold_remove_preserves_none
      rw [lookup_filter_ne, if_pos rfl]
    · exact ih _ h0

theorem dropWhile_all_lt (c : Int) (l : List Int) (h : ∀ x ∈ l, x < c) :
    l.dropWhile (fun ts => decide (ts < c)) = [] := by
  induction l with
  | nil => rfl
  | cons a l ih =>
    rw [List.dropWhile_cons]
    simp only [decide_eq_true_eq]
    rw [if_pos (h a (List.mem_cons_self _ _))]
    exact ih fun x hx => h x (List.mem_cons_of_mem _ hx)

theorem sorted_dropWhile_ge (c : Int) (l : List Int)
    (hs : List.Sorted (· ≤ ·) l) :
    ∀ x ∈ l.dropWhile (fun ts => decide (ts < c)), c ≤ x := by
  induction l with
  | nil => simp
  | cons a l ih =>
    rw [List.sorted_cons] at hs
    obtain ⟨ha, hl⟩ := hs
    rw [List.dropWhile_cons]
    by_cases hac : a < c
    · simpa [hac] using ih hl
    · intro x hx
      simp only [decide_eq_true_eq, if_neg hac] at hx
      rcases List.mem_cons.mp hx with h0 | h0
      · subst h0; omega
      · exact le_trans (not_lt.mp hac) (ha x h0)

theorem getLast?_dropWhile {α : Type} (p : α → Bool) (l : List α)
    (h : l.dropWhile p ≠ []) : (l.dropWhile p).getLast? = l.getLast? := by
  induction l with
  | nil => simp at h
  | cons a l ih =>
    rw [List.dropWhile_cons]
    by_cases hp : p a = true
    · rw [if_pos hp]
      rw [List.dropWhile_cons, if_pos hp] at h
      have hl : l ≠ [] := by
        intro he; subst he; simp [List.dropWhile] at h
      cases l with
      | nil => exact absurd rfl hl
      | cons b t => rw [ih h, List.getLast?_cons_cons]
    · rw [if_neg hp]

theorem mem_keys_iff {β : Type} (m : List (String × β)) (n : String) :
    n ∈ keys m ↔ ∃ b, (n, b) ∈ m := by
  constructor
  · intro h
    obtain ⟨x, hx, hfst⟩ := List.mem_map.mp h
    exact ⟨x.2, by rwa [show (n, x.2) = x from Prod.ext hfst.symm rfl]⟩
  · rintro ⟨b, hb⟩
    exact List.mem_map.mpr ⟨(n, b), hb, rfl⟩

theorem nodup_keys_eq {β : Type} (m : List (String × β))
    (h : (keys m).Nodup) (n : String) (a b : β)
    (ha : (n, a) ∈ m) (hb : (n, b) ∈ m) : a = b := by
  induction m with
  | nil => simp at ha
  | cons e m ih =>
    rw [show keys (e :: m) = e.1 :: keys m from rfl, List.nodup_cons] at h
    obtain ⟨hnot, hnodup⟩ := h
    rcases List.mem_cons.mp ha with h1 | h1 <;>
      rcases List.mem_cons.mp hb with h2 | h2
    · exact congrArg Prod.snd (h1.trans h2.symm)
    · exfalso
      apply hnot
      rw [show e.1 = n from congrArg Prod.fst h1.symm]
      exact (mem_keys_iff m n).mpr ⟨b, h2⟩
    · exfalso
      apply hnot
      rw [show e.1 = n from congrArg Prod.fst h2.symm]
      exact (mem_keys_iff m n).mpr ⟨a, h1⟩
    · exact ih hnodup h1 h2

theorem one_le_toNat_max_one (x : Int) : 1 ≤ (max x 1).toNat := by
  have h := le_max_right x 1
  omega

theorem compute_time_buckets_length (start stop : Int)
    (num_buckets : Nat) (min_bucket_secs : Int) :
    (compute_time_buckets start stop num_buckets min_bucket_secs).length =
      (max (Int.tdiv (stop - start)
        (max (Int.tdiv (stop - start) (num_buckets : Int)) min_bucket_secs)) 1).toNat := by
  unfold compute_time_buckets
  simp only [List.length_map, List.length_range]

theorem one_le_compute_time_buckets_length (start stop : Int)
    (num_buckets : Nat) (min_bucket_secs : Int) :
    1 ≤ (compute_time_buckets start stop num_buckets min_bucket_secs).length := by
  rw [compute_time_buckets_length]
  exact one_le_toNat_max_one _

theorem metrics_prune_full_eq (now retention : Int) (store : MetricsMap) :
    metrics_prune_full now retention store =
      ((store.map (fun p =>
          (p.1, p.2.dropWhile (fun e => decide (e.timestamp < now - retention))))).filter
            (fun p => !p.2.isEmpty),
       ((store.map (fun p =>
          (p.1, p.2.dropWhile (fun e => decide (e.timestamp < now - retention))))).filter
            (fun p => p.2.isEmpty)).map Prod.fst,
       ((store.map (fun p =>
          (p.1, p.2.dropWhile (fun e => decide (e.timestamp < now - retention))))).filter
            (fun p => !p.2.isEmpty)).map Prod.fst) := rfl

theorem tag_match_iff (tags : List (String × String)) (k v : String) :
    ((match lookup_key k tags with
      | some tv => decide (tv = v)
      | none => false) = true) ↔ lookup_key k tags = some v := by
  cases h : lookup_key k tags with
  | none => simp
  | some tv => simp

/-!
C3 — claim: for every `start`, `end`, `numBuckets` and `minBucketSeconds`,
`computeBuckets` (and the identical width computation in `bucketEvents`)
performs no division by zero and returns at least one bucket.
The claim is false as stated: with `numBuckets = 0` the very first
division `total_secs / num_buckets` divides by zero (a panic in Rust).
It holds for positive `numBuckets` and `minBucketSeconds`.
-/

/-- C3 (counterexample): at `start = stop = 0`, `num_buckets = 0`,
`min_bucket_secs = 60` the division-safety part of the claim fails —
`compute_time_buckets` divides `total_secs` by `num_buckets = 0`. -/
theorem c3_counterexample :
    ¬ (bucketing_divisors_nonzero 0 0 0 60 ∧
      1 ≤ (compute_time_buckets 0 0 0 60).length) := by
  decide

/-- C3 (amended): for positive `num_buckets` and `min_bucket_secs` (which
all call sites satisfy: `CHART_BUCKET_COUNT = 100`,
`MIN_BUCKET_SECONDS = 1`), every divisor in `compute_time_buckets` and in
the repeated width computation of `bucket_events` is nonzero, and at least
one bucket is returned, even for a zero-length or reversed range. -/
theorem c3_bucketing_safe (start stop : Int) (num_buckets : Nat)
    (min_bucket_secs : Int) (hn : 1 ≤ num_buckets) (hm : 1 ≤ min_bucket_secs) :
    bucketing_divisors_nonzero start stop num_buckets min_bucket_secs ∧
      1 ≤ (compute_time_buckets start stop num_buckets min_bucket_secs).length := by
  refine ⟨⟨?_, ?_⟩, one_le_compute_time_buckets_length _ _ _ _⟩
  · have h : num_buckets ≠ 0 := by omega
    exact_mod_cast h
  · have h := le_max_right (Int.tdiv (stop - start) (num_buckets : Int)) min_bucket_secs
    omega

/-- C3 (witness): the amended statement at the zero-length range
`[0, 0]` with the production constants. -/
theorem c3_witness :
    bucketing_divisors_nonzero 0 0 100 1 ∧
      1 ≤ (compute_time_buckets 0 0 100 1).length :=
  c3_bucketing_safe 0 0 100 1 (by decide) (by decide)

/-!
C8 — claim: `aggregateAverage` yields per bucket the arithmetic mean of the
values present in that bucket's events, and exactly `0` for a bucket with
zero valued events.  Confirmed (with `f64` modelled as `Rat`, where the
explicit empty-case branch of the source is what rules out a `0/0` result).
-/

/-- C8: for every bucket `(ts, evs)` of the input, `aggregate_average`
produces at position `i` a pair `(ts, a)` where `a = 0` if no event of the
bucket carries a value, and otherwise `a` is the arithmetic mean of the
present values (characterised by `count * a = sum`). -/
theorem c8_aggregate_average_mean (buckets : List (Int × List MetricEvent))
    (i : Nat) (ts : Int) (evs : List MetricEvent)
    (h : buckets[i]? = some (ts, evs)) :
    ∃ a : Rat, (aggregate_average buckets)[i]? = some (ts, a) ∧
      (evs.filterMap (fun e => e.value) = [] → a = 0) ∧
      (evs.filterMap (fun e => e.value) ≠ [] →
        ((evs.filterMap (fun e => e.value)).length : Rat) * a =
          (evs.filterMap (fun e => e.value)).sum) := by
  refine ⟨if (evs.filterMap (fun e => e.value)).isEmpty then 0
    else (evs.filterMap (fun e => e.value)).sum /
      ((evs.filterMap (fun e => e.value)).length : Rat), ?_, ?_, ?_⟩
  · unfold aggregate_average
    rw [List.getElem?_map, h]
    rfl
  · intro hv
    simp [hv]
  · intro hv
    have hne : ¬ ((evs.filterMap (fun e => e.value)).isEmpty = true) := by
      simpa using hv
    rw [if_neg hne]
    have hlen : ((evs.filterMap (fun e => e.value)).length : Rat) ≠ 0 := by
      have : (evs.filterMap (fun e => e.value)).length ≠ 0 := by
        simpa [List.length_eq_zero] using hv
      exact_mod_cast this
    rw [mul_comm]
    exact div_mul_cancel₀ _ hlen

/-- C8 (witness): the bucket `(0, avg_evs_fix)` of `buckets_avg_fix`
(values 3 and 5 plus a valueless event). -/
theorem c8_witness :
    ∃ a : Rat, (aggregate_average buckets_avg_fix)[0]? = some (0, a) ∧
      (avg_evs_fix.filterMap (fun e => e.value) = [] → a = 0) ∧
      (avg_evs_fix.filterMap (fun e => e.value) ≠ [] →
        ((avg_evs_fix.filterMap (fun e => e.value)).length : Rat) * a =
          (avg_evs_fix.filterMap (fun e => e.value)).sum) :=
  c8_aggregate_average_mean buckets_avg_fix 0 0 avg_evs_fix rfl

/-!
C10 — claim: every call to `MetricStore.prune` rewrites the durable file of
every agent that still has events after trimming, including agents from
which no events were removed.  Confirmed: the rewrite loop iterates the
whole surviving map unconditionally (contrast the registry's `dirty`
tracking).
-/

/-- C10: an agent all of whose events are within the retention window
(nothing to trim) survives `MetricStore::prune` unchanged and its durable
file is rewritten anyway; moreover the rewrite set is exactly the surviving
key set. -/
theorem c10_metrics_prune_rewrites_all (now retention : Int)
    (store : MetricsMap) (name : String) (evs : List MetricEvent)
    (hmem : (name, evs) ∈ store)
    (hfresh : ∀ e ∈ evs, now - retention ≤ e.timestamp)
    (hne : evs ≠ []) :
    (name, evs) ∈ (metrics_prune_full now retention store).1 ∧
      name ∈ (metrics_prune_full now retention store).2.2 ∧
      (metrics_prune_full now retention store).2.2 =
        keys (metrics_prune_full now retention store).1 := by
  have hdrop : evs.dropWhile (fun e => decide (e.timestamp < now - retention)) = evs := by
    cases evs with
    | nil => rfl
    | cons e t =>
      rw [List.dropWhile_cons, if_neg]
      simp only [decide_eq_true_eq]
      exact not_lt.mpr (hfresh e (List.mem_cons_self _ _))
  have htrim : (name, evs) ∈ store.map (fun p =>
      (p.1, p.2.dropWhile (fun e => decide (e.timestamp < now - retention)))) :=
    List.mem_map.mpr ⟨(name, evs), hmem, by rw [hdrop]⟩
  have hmem1 : (name, evs) ∈ (metrics_prune_full now retention store).1 := by
    rw [metrics_prune_full_eq]
    exact List.mem_filter.mpr ⟨htrim, by simp [hne]⟩
  refine ⟨hmem1, ?_, ?_⟩
  · rw [metrics_prune_full_eq]
    rw [metrics_prune_full_eq] at hmem1
    exact List.mem_map.mpr ⟨(name, evs), hmem1, rfl⟩
  · rw [metrics_prune_full_eq]
    rfl

/-- C10 (witness): `metrics_unchanged_fix` at `now = 100`,
`retention = 10`: the single event at `t = 95` is inside the window, and
the agent `d` is still rewritten. -/
theorem c10_witness :
    ("d", [ev_unchanged_fix]) ∈
        (metrics_prune_full 100 10 metrics_unchanged_fix).1 ∧
      "d" ∈ (metrics_prune_full 100 10 metrics_unchanged_fix).2.2 ∧
      (metrics_prune_full 100 10 metrics_unchanged_fix).2.2 =
        keys (metrics_prune_full 100 10 metrics_unchanged_fix).1 :=
  c10_metrics_prune_rewrites_all 100 10 metrics_unchanged_fix "d" _
    (by decide) (by decide) (by decide)

/-!
C7 — claim: `queryWindow` returns exactly the stored events of the agent
matching the event id exactly, with timestamp in `[start, end]` inclusive,
and carrying every filter key with exactly that value; unknown agents yield
the empty sequence.  Confirmed.
-/

/-- C7: an unknown agent yields `[]`, and an event is in the result iff it
is stored for that agent, has the queried event id, lies in the inclusive
window and satisfies every tag filter (an event missing a filter key does
not match, since `lookup_key` then returns `none`). -/
theorem c7_query_window_exact (store : MetricsMap) (name ev_id : String)
    (start stop : Int) (filters : List (String × String)) :
    (lookup_key name store = none →
      query_window store name ev_id start stop filters = []) ∧
    ∀ e : MetricEvent, e ∈ query_window store name ev_id start stop filters ↔
      ∃ evs, lookup_key name store = some evs ∧ e ∈ evs ∧
        e.event_id = ev_id ∧ start ≤ e.timestamp ∧ e.timestamp ≤ stop ∧
        ∀ kv ∈ filters, lookup_key kv.1 e.tags = some kv.2 := by
  cases h : lookup_key name store with
  | none =>
    constructor
    · intro _
      unfold query_window
      rw [h]
    · intro e
      unfold query_window
      rw [h]
      simp [h]
  | some evs =>
    constructor
    · intro hc
      exact absurd hc (by simp)
    · intro e
      unfold query_window
      rw [h, List.mem_filter]
      unfold matches_query
      simp only [Bool.and_eq_true, decide_eq_true_eq]
      constructor
      · rintro ⟨hmem, ⟨⟨⟨hid, hstart⟩, hstop⟩, hall⟩⟩
        refine ⟨evs, rfl, hmem, hid, hstart, hstop, ?_⟩
        intro kv hkv
        exact (tag_match_iff _ _ _).mp (List.all_eq_true.mp hall kv hkv)
      · rintro ⟨evs2, hevs2, hmem, hid, hstart, hstop, htags⟩
        rw [← Option.some.inj hevs2] at hmem
        refine ⟨hmem, ⟨⟨⟨hid, hstart⟩, hstop⟩, ?_⟩⟩
        exact List.all_eq_true.mpr fun kv hkv =>
          (tag_match_iff _ _ _).mpr (htags kv hkv)

theorem prune_heartbeat_history_full_eq (now retention : Int) (reg : Registry) :
    prune_heartbeat_history_full now retention reg =
      ((reg.map (fun e => (e.1, trim_history (now - retention) e.2))).filter
          (fun e => !e.2.heartbeat_history.isEmpty),
       ((reg.map (fun e => (e.1, trim_history (now - retention) e.2))).filter
          (fun e => e.2.heartbeat_history.isEmpty)).map Prod.fst,
       ((reg.filter (fun e =>
          decide ((trim_history (now - retention) e.2).heartbeat_history.length ≠
            e.2.heartbeat_history.length))).map Prod.fst).filter
          (fun n => (lookup_key n
            ((reg.map (fun e => (e.1, trim_history (now - retention) e.2))).filter
              (fun e => !e.2.heartbeat_history.isEmpty))).isSome)) := rfl

theorem heartbeat_history_trim_history (cutoff : Int) (info : BotInfo) :
    (trim_history cutoff info).heartbeat_history =
      info.heartbeat_history.dropWhile (fun ts => decide (ts < cutoff)) := rfl

/-- If an entry of the registry trims to an empty history, its key is gone
from the pruned registry (keys are unique, as in the source `HashMap`). -/
theorem trim_empty_not_in_pruned_keys (now retention : Int) (reg : Registry)
    (name : String) (info : BotInfo) (hmem : (name, info) ∈ reg)
    (hnodup : (keys reg).Nodup)
    (hdrop : (trim_history (now - retention) info).heartbeat_history = []) :
    name ∉ keys (prune_heartbeat_history_full now retention reg).1 := by
  intro hkey
  obtain ⟨b, hb⟩ := (mem_keys_iff _ _).mp hkey
  rw [prune_heartbeat_history_full_eq] at hb
  have hb1 := (List.mem_filter.mp hb).1
  have hb2 := (List.mem_filter.mp hb).2
  obtain ⟨p, hp, hpe⟩ := List.mem_map.mp hb1
  have hp1 : p.1 = name := congrArg Prod.fst hpe
  have hp2 : trim_history (now - retention) p.2 = b := congrArg Prod.snd hpe
  have hsame : p.2 = info := by
    have hpmem : (name, p.2) ∈ reg := by
      rw [← hp1]
      exact hp
    exact nodup_keys_eq reg hnodup name p.2 info hpmem hmem
  rw [hsame] at hp2
  rw [← hp2] at hb2
  rw [hdrop] at hb2
  simp at hb2

/-!
C2 — claim: a heartbeat exactly equal to the final bucket's end boundary
sets the last bucket's had-a-heartbeat flag.  The claim is false: the
source guards with `idx < actual_buckets` and has no clamp, so such a
heartbeat is dropped from the per-bucket flags (only the chart-level
`any_heartbeats` check is end-inclusive).
-/

/-- C2 (counterexample): window `[0, 180]` with 3 buckets of 60 s; the
final bucket's end boundary is 180, and a single heartbeat exactly at 180
leaves every flag false — in particular the last one. -/
theorem c2_counterexample :
    uptime_final_boundary 0 180 3 = 180 ∧
      uptime_has_heartbeat [180] 0 180 3 = [false, false, false] ∧
      uptime_any_heartbeats [180] 0 180 = true := by
  decide

theorem uptime_step_at_boundary (start bucket_secs q : Int)
    (hB : 0 < bucket_secs) (hq : 0 ≤ q) (flags : List Bool) :
    uptime_step start bucket_secs q.toNat flags (start + bucket_secs * q) = flags := by
  unfold uptime_step
  have h1 : start + bucket_secs * q - start = bucket_secs * q := by ring
  rw [h1]
  rw [if_neg (not_lt.mpr (mul_nonneg hB.le hq))]
  rw [Int.mul_tdiv_cancel_left q (ne_of_gt hB)]
  rw [if_neg (lt_irrefl _)]

/-- C2 (amended): a heartbeat exactly equal to the final bucket's end
boundary contributes nothing to the per-bucket flags — appending it to any
heartbeat list leaves `uptime_has_heartbeat` unchanged (it fails the
`idx < actual_buckets` bound); the end of the window is inclusive only in
the chart-level `uptime_any_heartbeats` check. -/
theorem c2_uptime_boundary_dropped (heartbeats : List Int) (start stop : Int)
    (num_buckets : Nat) :
    uptime_has_heartbeat (heartbeats ++ [uptime_final_boundary start stop num_buckets])
        start stop num_buckets =
      uptime_has_heartbeat heartbeats start stop num_buckets := by
  unfold uptime_has_heartbeat uptime_final_boundary
  rw [List.foldl_append, List.foldl_cons, List.foldl_nil]
  have hB : 0 < bucket_secs_uptime start stop num_buckets :=
    lt_of_lt_of_le zero_lt_one (le_max_right _ 1)
  have hT : 0 ≤ total_secs_uptime start stop :=
    le_trans zero_le_one (le_max_right _ 1)
  exact uptime_step_at_boundary start _ _ hB (Int.tdiv_nonneg hT hB.le) _

/-!
C5 — claim: after `pruneHistory(r)` every remaining heartbeat timestamp is
`≥ now - r`, and an agent whose entire history was older than `now - r` is
removed.  Confirmed under the data-model invariant that each history is
sorted ascending (the trim is a prefix trim) and the `HashMap` key
uniqueness of the source.
-/

/-- C5: with sorted histories and unique keys, pruning leaves only
timestamps `≥ now - retention`, and an agent whose history lies entirely
below the cutoff is no longer in the registry. -/
theorem c5_prune_history_retention (now retention : Int) (reg : Registry)
    (hsorted : ∀ e ∈ reg, List.Sorted (· ≤ ·) e.2.heartbeat_history)
    (hnodup : (keys reg).Nodup) :
    (∀ e ∈ prune_heartbeat_history now retention reg,
      ∀ ts ∈ e.2.heartbeat_history, now - retention ≤ ts) ∧
    (∀ e ∈ reg, (∀ ts ∈ e.2.heartbeat_history, ts < now - retention) →
      e.1 ∉ keys (prune_heartbeat_history now retention reg)) := by
  constructor
  · intro e he ts hts
    unfold prune_heartbeat_history at he
    rw [prune_heartbeat_history_full_eq] at he
    have he1 := (List.mem_filter.mp he).1
    obtain ⟨p, hp, hpe⟩ := List.mem_map.mp he1
    have h2 : (trim_history (now - retention) p.2).heartbeat_history =
        e.2.heartbeat_history := by
      rw [← hpe]
    rw [heartbeat_history_trim_history] at h2
    rw [← h2] at hts
    exact sorted_dropWhile_ge (now - retention) p.2.heartbeat_history
      (hsorted p hp) ts hts
  · intro e he hall
    have hdrop : (trim_history (now - retention) e.2).heartbeat_history = [] := by
      rw [heartbeat_history_trim_history]
      exact dropWhile_all_lt _ _ hall
    exact trim_empty_not_in_pruned_keys now retention reg e.1 e.2 he hnodup hdrop

/-- C5 (witness): `reg_sorted_fix` (history `[80, 95]`) pruned at
`now = 100`, `retention = 10`. -/
theorem c5_witness :
    (∀ e ∈ prune_heartbeat_history 100 10 reg_sorted_fix,
      ∀ ts ∈ e.2.heartbeat_history, (100 : Int) - 10 ≤ ts) ∧
    (∀ e ∈ reg_sorted_fix,
      (∀ ts ∈ e.2.heartbeat_history, ts < (100 : Int) - 10) →
      e.1 ∉ keys (prune_heartbeat_history 100 10 reg_sorted_fix)) :=
  c5_prune_history_retention 100 10 reg_sorted_fix (by decide) (by decide)

/-!
C9 — claim: an agent whose record has an empty heartbeat history when
`pruneHistory` runs (e.g. created by `ensureRegistered` and never sent a
heartbeat) is removed from the registry and its durable entry deleted, for
every retention window, however recent its `last_heartbeat`.  Confirmed:
the empty-bots sweep collects every record with empty history, trimmed or
not.  (The durable deletion is the `storage::remove_bot_file` call, whose
contract is the spec's `deleteKey`.)
-/

/-- C9: a record with empty history is removed by
`prune_heartbeat_history` — its key leaves the registry and joins the
durable-file deletion set — with no constraint on `last_heartbeat` or the
retention window. -/
theorem c9_empty_history_always_removed (now retention : Int) (reg : Registry)
    (name : String) (info : BotInfo) (hmem : (name, info) ∈ reg)
    (hempty : info.heartbeat_history = [])
    (hnodup : (keys reg).Nodup) :
    name ∉ keys (prune_heartbeat_history_full now retention reg).1 ∧
      name ∈ (prune_heartbeat_history_full now retention reg).2.1 := by
  have hdrop : (trim_history (now - retention) info).heartbeat_history = [] := by
    rw [heartbeat_history_trim_history, hempty]
    rfl
  constructor
  · exact trim_empty_not_in_pruned_keys now retention reg name info hmem hnodup hdrop
  · rw [prune_heartbeat_history_full_eq]
    refine List.mem_map.mpr ⟨(name, trim_history (now - retention) info), ?_, rfl⟩
    refine List.mem_filter.mpr ⟨?_, ?_⟩
    · exact List.mem_map.mpr ⟨(name, info), hmem, rfl⟩
    · rw [hdrop]
      rfl

/-- C9 (witness): the ensure-registered agent `c` with empty history and
`last_heartbeat = 99`, pruned at `now = 100` with retention `10` (so its
`last_heartbeat` is well inside the window). -/
theorem c9_witness :
    "c" ∉ keys (prune_heartbeat_history_full 100 10 reg_empty_history_fix).1 ∧
      "c" ∈ (prune_heartbeat_history_full 100 10 reg_empty_history_fix).2.1 :=
  c9_empty_history_always_removed 100 10 reg_empty_history_fix "c" info_empty_fix
    (by decide) (by decide) (by decide)

theorem background_cycle_eq (now retention : Int) (reg : Registry)
    (metrics : MetricsMap) :
    background_cycle now retention reg metrics =
      ((stale_bot_names now retention (prune_heartbeat_history now retention reg)).foldl
         (fun r n => registry_remove n r) (prune_heartbeat_history now retention reg),
       (stale_bot_names now retention (prune_heartbeat_history now retention reg)).foldl
         (fun m n => metrics_remove_bot n m) (metrics_prune_full now retention metrics).1,
       stale_bot_names now retention (prune_heartbeat_history now retention reg)) := rfl

/-!
C1 — claim: the union of the two removal sets of a pruner cycle (names
removed because their history became empty, and the stale names) is applied
to `MetricStore.removeBot`.  The claim is false: `on_liftoff` collects only
`stale_bot_names`, computed *after* pruning, so a name removed by the
empty-history path never reaches `metrics.remove_bot` in that cycle.
-/

/-- C1 (counterexample): agent `a` has a single heartbeat at `t = 0` and a
metric event at `t = 95`; at `now = 100`, retention `10`, the cycle deletes
`a` from the registry (empty-history path) yet `a` is still in the metric
store afterwards. -/
theorem c1_counterexample :
    "a" ∈ keys reg_aged ∧
      lookup_key "a" (background_cycle 100 10 reg_aged metrics_recent).1 = none ∧
      lookup_key "a" (background_cycle 100 10 reg_aged metrics_recent).2.1 ≠ none := by
  decide

/-- C1 (amended): only the `stale_bot_names` set (computed from the
already-pruned registry) is applied to `MetricStore::remove_bot`: every
stale name is removed from both stores in that cycle, but agents removed
because their history became empty are not removed from the metric store
(see the counterexample). -/
theorem c1_stale_names_removed_everywhere (now retention : Int)
    (reg : Registry) (metrics : MetricsMap) (name : String)
    (h : name ∈ (background_cycle now retention reg metrics).2.2) :
    lookup_key name (background_cycle now retention reg metrics).2.1 = none ∧
      lookup_key name (background_cycle now retention reg metrics).1 = none := by
  rw [background_cycle_eq] at h ⊢
  exact ⟨fold_remove_lookup_none _ _ _ h, fold_remove_lookup_none _ _ _ h⟩

/-- C1 (witness): the spec's stale fixture — `b` has a recent history
entry at `t = 95` but `last_heartbeat = 0` — is stale after pruning and is
removed from both stores at `now = 100`, retention `10`. -/
theorem c1_witness :
    lookup_key "b" (background_cycle 100 10 reg_stale_fix metrics_stale_fix).2.1 = none ∧
      lookup_key "b" (background_cycle 100 10 reg_stale_fix metrics_stale_fix).1 = none :=
  c1_stale_names_removed_everywhere 100 10 reg_stale_fix metrics_stale_fix "b"
    (by decide)

theorem bucket_events_eq (events : List MetricEvent) (start stop : Int)
    (num_buckets : Nat) (min_bucket_secs : Int) :
    bucket_events events start stop num_buckets min_bucket_secs =
      events.foldl
        (bucket_step start (max (Int.tdiv (stop - start) (num_buckets : Int)) min_bucket_secs)
          (compute_time_buckets start stop num_buckets min_bucket_secs).length)
        ((compute_time_buckets start stop num_buckets min_bucket_secs).map
          (fun tb => (tb.start, ([] : List MetricEvent)))) := rfl

theorem bucket_step_neg (s bs : Int) (N : Nat)
    (B : List (Int × List MetricEvent)) (e : MetricEvent)
    (h : e.timestamp - s < 0) : bucket_step s bs N B e = B := by
  unfold bucket_step
  rw [if_pos h]

theorem bucket_step_pos (s bs : Int) (N : Nat)
    (B : List (Int × List MetricEvent)) (e : MetricEvent)
    (h : ¬ e.timestamp - s < 0) :
    bucket_step s bs N B e =
      push_at (min (Int.tdiv (e.timestamp - s) bs).toNat (N - 1)) e B := by
  unfold bucket_step
  rw [if_neg h]

theorem length_bucket_step (s bs : Int) (N : Nat)
    (B : List (Int × List MetricEvent)) (e : MetricEvent) :
    (bucket_step s bs N B e).length = B.length := by
  unfold bucket_step
  split
  · rfl
  · exact length_push_at _ _ _

theorem sum_lens_foldl_bucket_step (s bs : Int) (N : Nat)
    (evs : List MetricEvent) (B : List (Int × List MetricEvent))
    (hlen : B.length = N) (hN : 1 ≤ N) :
    sum_lens (List.foldl (bucket_step s bs N) B evs) +
      (evs.filter (fun e => decide (e.timestamp < s))).length =
      sum_lens B + evs.length := by
  induction evs generalizing B with
  | nil => simp
  | cons e evs ih =>
    rw [List.foldl_cons, List.filter_cons]
    by_cases h : e.timestamp - s < 0
    · rw [bucket_step_neg s bs N B e h]
      rw [if_pos (decide_eq_true (show e.timestamp < s by omega))]
      have hrec := ih B hlen
      simp only [List.length_cons]
      omega
    · rw [bucket_step_pos s bs N B e h]
      rw [if_neg (by simp only [decide_eq_true_eq]; omega)]
      have hidx : min (Int.tdiv (e.timestamp - s) bs).toNat (N - 1) < B.length := by
        rw [hlen]
        have := min_le_right (Int.tdiv (e.timestamp - s) bs).toNat (N - 1)
        omega
      have hlen2 : (push_at (min (Int.tdiv (e.timestamp - s) bs).toNat (N - 1)) e B).length = N := by
        rw [length_push_at, hlen]
      have hrec := ih _ hlen2
      have hsum := sum_lens_push_at _ e B hidx
      simp only [List.length_cons]
      omega

theorem mem_foldl_bucket_step_of_mem (s bs : Int) (N : Nat)
    (evs : List MetricEvent) (B : List (Int × List MetricEvent))
    (x : MetricEvent) (h : ∃ b ∈ B, x ∈ b.2) :
    ∃ b ∈ List.foldl (bucket_step s bs N) B evs, x ∈ b.2 := by
  induction evs generalizing B with
  | nil => simpa using h
  | cons e evs ih =>
    rw [List.foldl_cons]
    by_cases hneg : e.timestamp - s < 0
    · rw [bucket_step_neg s bs N B e hneg]
      exact ih B h
    · rw [bucket_step_pos s bs N B e hneg]
      exact ih _ (mem_push_at_of_mem _ e x B h)

theorem mem_foldl_bucket_step_self (s bs : Int) (N : Nat)
    (evs : List MetricEvent) (B : List (Int × List MetricEvent))
    (e : MetricEvent) (hlen : B.length = N) (hN : 1 ≤ N)
    (he : e ∈ evs) (hts : s ≤ e.timestamp) :
    ∃ b ∈ List.foldl (bucket_step s bs N) B evs, e ∈ b.2 := by
  induction evs generalizing B with
  | nil => simp at he
  | cons a evs ih =>
    rw [List.foldl_cons]
    rcases List.mem_cons.mp he with h0 | h0
    · subst h0
      have hneg : ¬ e.timestamp - s < 0 := by omega
      rw [bucket_step_pos s bs N B e hneg]
      apply mem_foldl_bucket_step_of_mem
      apply self_mem_push_at
      rw [hlen]
      have := min_le_right (Int.tdiv (e.timestamp - s) bs).toNat (N - 1)
      omega
    · exact ih _ (by rw [length_bucket_step, hlen]) h0

theorem foldl_bucket_step_timestamps (s bs : Int) (N : Nat)
    (evs : List MetricEvent) (B : List (Int × List MetricEvent))
    (hB : ∀ b ∈ B, ∀ x ∈ b.2, s ≤ x.timestamp) :
    ∀ b ∈ List.foldl (bucket_step s bs N) B evs, ∀ x ∈ b.2, s ≤ x.timestamp := by
  induction evs generalizing B with
  | nil => simpa using hB
  | cons e evs ih =>
    rw [List.foldl_cons]
    by_cases hneg : e.timestamp - s < 0
    · rw [bucket_step_neg s bs N B e hneg]
      exact ih B hB
    · rw [bucket_step_pos s bs N B e hneg]
      exact ih _ (push_at_forall _ e B _ hB (by omega))

theorem sum_lens_init_buckets (l : List TimeBucket) :
    sum_lens (l.map (fun tb => (tb.start, ([] : List MetricEvent)))) = 0 := by
  induction l with
  | nil => rfl
  | cons tb l ih => simpa [sum_lens] using ih

/-!
C4 — claim: `bucketEvents` drops an event only when its timestamp is before
`start`, assigns every other event to exactly one bucket, and per-bucket
counts plus the dropped-before-start count equals the input count.
Confirmed for positive `numBuckets` and `minBucketSeconds` (the same
well-formedness C3 establishes; all call sites satisfy it).
-/

/-- C4: count conservation (sum of bucket sizes + events before `start` =
input size), every event with `timestamp ≥ start` lands in some bucket,
and buckets only contain events with `timestamp ≥ start` — together: an
event is dropped iff its timestamp is before `start`, and each kept event
occupies exactly one bucket slot. -/
theorem c4_bucket_events_conservation (events : List MetricEvent)
    (start stop : Int) (num_buckets : Nat) (min_bucket_secs : Int)
    (hn : 1 ≤ num_buckets) (hm : 1 ≤ min_bucket_secs) :
    (sum_lens (bucket_events events start stop num_buckets min_bucket_secs) +
      (events.filter (fun e => decide (e.timestamp < start))).length =
        events.length) ∧
    (∀ e ∈ events, start ≤ e.timestamp →
      ∃ b ∈ bucket_events events start stop num_buckets min_bucket_secs, e ∈ b.2) ∧
    (∀ b ∈ bucket_events events start stop num_buckets min_bucket_secs,
      ∀ e ∈ b.2, start ≤ e.timestamp) := by
  have hN := one_le_compute_time_buckets_length start stop num_buckets min_bucket_secs
  have hlen : ((compute_time_buckets start stop num_buckets min_bucket_secs).map
      (fun tb => (tb.start, ([] : List MetricEvent)))).length =
      (compute_time_buckets start stop num_buckets min_bucket_secs).length :=
    List.length_map _ _
  rw [bucket_events_eq]
  refine ⟨?_, ?_, ?_⟩
  · rw [sum_lens_foldl_bucket_step _ _ _ _ _ hlen hN, sum_lens_init_buckets]
    omega
  · intro e he hts
    exact mem_foldl_bucket_step_self _ _ _ _ _ e hlen hN he hts
  · apply foldl_bucket_step_timestamps
    intro b hb x hx
    obtain ⟨tb, _, htb⟩ := List.mem_map.mp hb
    rw [← htb] at hx
    simp at hx

/-- C4 (witness): the window `[0, 180]` with 3 buckets over
`events_window_fix` (one event at the end boundary, one before the window,
one inside). -/
theorem c4_witness :
    (sum_lens (bucket_events events_window_fix 0 180 3 1) +
      (events_window_fix.filter (fun e => decide (e.timestamp < 0))).length =
        events_window_fix.length) ∧
    (∀ e ∈ events_window_fix, (0 : Int) ≤ e.timestamp →
      ∃ b ∈ bucket_events events_window_fix 0 180 3 1, e ∈ b.2) ∧
    (∀ b ∈ bucket_events events_window_fix 0 180 3 1,
      ∀ e ∈ b.2, (0 : Int) ≤ e.timestamp) :=
  c4_bucket_events_conservation events_window_fix 0 180 3 1 (by decide) (by decide)

theorem registry_inv_mono (t tq : Int) (c : String → Int) (reg : Registry)
    (hle : t ≤ tq) (hinv : registry_inv t c reg) : registry_inv tq c reg := by
  intro e he
  obtain ⟨h1, h2, h3, h4, h5⟩ := hinv e he
  exact ⟨h1, fun ts hts => le_trans (h2 ts hts) hle, le_trans h3 hle, h4, h5⟩

theorem registry_inv_agree (t : Int) (c cq : String → Int) (reg : Registry)
    (hagree : ∀ k ∈ keys reg, cq k = c k)
    (hinv : registry_inv t c reg) : registry_inv t cq reg := by
  intro e he
  obtain ⟨h1, h2, h3, h4, h5⟩ := hinv e he
  refine ⟨h1, h2, h3, h4, fun hh => ?_⟩
  rw [hagree e.1 (List.mem_map.mpr ⟨e, he, rfl⟩)]
  exact h5 hh

theorem ensure_registered_of_mem (now : Int) (name : String) (reg : Registry)
    (h : name ∈ keys reg) : ensure_registered now name reg = reg := by
  induction reg with
  | nil => simp [keys] at h
  | cons b rest ih =>
    rw [ensure_registered]
    by_cases hb : b.1 = name
    · rw [if_pos hb]
    · rw [if_neg hb]
      rcases List.mem_cons.mp h with h0 | h0
      · exact absurd h0.symm hb
      · rw [ih h0]

theorem registry_inv_log_heartbeat (now : Int) (name : String)
    (c : String → Int) (reg : Registry) (hinv : registry_inv now c reg) :
    registry_inv now c (log_heartbeat now name reg) := by
  induction reg with
  | nil =>
    intro e he
    rw [log_heartbeat] at he
    rcases List.mem_cons.mp he with h0 | h0
    · subst h0
      refine ⟨List.sorted_singleton now, ?_, le_refl now, ?_, ?_⟩
      · intro ts hts
        rw [List.mem_singleton.mp hts]
      · intro _
        rfl
      · intro hcontra
        exact absurd hcontra (by simp)
    · simp at h0
  | cons b rest ih =>
    intro e he
    rw [log_heartbeat] at he
    by_cases hb : b.1 = name
    · rw [if_pos hb] at he
      rcases List.mem_cons.mp he with h0 | h0
      · subst h0
        obtain ⟨h1, h2, h3, h4, h5⟩ := hinv b (List.mem_cons_self _ _)
        refine ⟨?_, ?_, le_refl now, ?_, ?_⟩
        · rw [List.Sorted]
          rw [List.pairwise_append]
          refine ⟨h1, List.pairwise_singleton _ _, ?_⟩
          intro a ha bq hbq
          rw [List.mem_singleton.mp hbq]
          exact h2 a ha
        · intro ts hts
          rcases List.mem_append.mp hts with hh | hh
          · exact h2 ts hh
          · rw [List.mem_singleton.mp hh]
        · intro _
          exact List.getLast?_concat _
        · intro hcontra
          exact absurd hcontra (by simp)
      · exact hinv e (List.mem_cons_of_mem _ h0)
    · rw [if_neg hb] at he
      rcases List.mem_cons.mp he with h0 | h0
      · rw [h0]
        exact hinv b (List.mem_cons_self _ _)
      · exact ih (fun eq heq => hinv eq (List.mem_cons_of_mem _ heq)) e h0

theorem registry_inv_ensure_fresh (now : Int) (name : String)
    (c cq : String → Int) (reg : Registry) (hinv : registry_inv now c reg)
    (hname : cq name = now) (hagree : ∀ k ∈ keys reg, cq k = c k) :
    registry_inv now cq (ensure_registered now name reg) := by
  induction reg with
  | nil =>
    intro e he
    rw [ensure_registered] at he
    rcases List.mem_cons.mp he with h0 | h0
    · subst h0
      refine ⟨List.sorted_nil, ?_, le_refl now, ?_, ?_⟩
      · intro ts hts
        simp at hts
      · intro hcontra
        exact absurd rfl hcontra
      · intro _
        exact hname.symm
    · simp at h0
  | cons b rest ih =>
    intro e he
    rw [ensure_registered] at he
    by_cases hb : b.1 = name
    · rw [if_pos hb] at he
      exact registry_inv_agree now c cq (b :: rest) hagree hinv e he
    · rw [if_neg hb] at he
      rcases List.mem_cons.mp he with h0 | h0
      · rw [h0]
        exact registry_inv_agree now c cq (b :: rest) hagree hinv b
          (List.mem_cons_self _ _)
      · exact ih (fun eq heq => hinv eq (List.mem_cons_of_mem _ heq))
          (fun k hk => hagree k (List.mem_cons_of_mem _ hk)) e h0

theorem registry_inv_prune (now retention : Int) (c : String → Int)
    (reg : Registry) (hinv : registry_inv now c reg) :
    registry_inv now c (prune_heartbeat_history now retention reg) := by
  intro e he
  unfold prune_heartbeat_history at he
  rw [prune_heartbeat_history_full_eq] at he
  have he1 := (List.mem_filter.mp he).1
  have hne : e.2.heartbeat_history ≠ [] := by
    have := (List.mem_filter.mp he).2
    simp at this
    intro hcontra
    rw [hcontra] at this
    simp at this
  obtain ⟨p, hp, hpe⟩ := List.mem_map.mp he1
  obtain ⟨h1, h2, h3, h4, h5⟩ := hinv p hp
  have hsnd : e.2 = trim_history (now - retention) p.2 := by rw [← hpe]
  have hhh : e.2.heartbeat_history =
      p.2.heartbeat_history.dropWhile (fun ts => decide (ts < now - retention)) := by
    rw [hsnd, heartbeat_history_trim_history]
  have hlastq : e.2.last_heartbeat = p.2.last_heartbeat := by rw [hsnd]; rfl
  have hsub : e.2.heartbeat_history.Sublist p.2.heartbeat_history := by
    rw [hhh]
    exact List.dropWhile_sublist _
  refine ⟨h1.sublist hsub, ?_, hlastq ▸ h3, ?_, fun hcontra => absurd hcontra hne⟩
  · intro ts hts
    exact h2 ts (hsub.subset hts)
  · intro _
    have hpne : p.2.heartbeat_history ≠ [] := by
      intro hcontra
      apply hne
      rw [hhh, hcontra]
      rfl
    rw [hhh, getLast?_dropWhile _ _ (by rw [← hhh]; exact hne), hlastq]
    exact h4 hpne

theorem registry_inv_remove (name : String) (t : Int) (c : String → Int)
    (reg : Registry) (hinv : registry_inv t c reg) :
    registry_inv t c (registry_remove name reg) := by
  intro e he
  exact hinv e (List.mem_filter.mp he).1

theorem registry_inv_apply_op (now : Int) (op : RegOp)
    (s : Registry × (String → Int)) (hinv : registry_inv now s.2 s.1) :
    registry_inv now (apply_reg_op now op s).2 (apply_reg_op now op s).1 := by
  cases op with
  | logHeartbeat name =>
    simp only [apply_reg_op]
    by_cases hk : name ∈ keys s.1
    · rw [if_pos hk]
      exact registry_inv_log_heartbeat now name s.2 s.1 hinv
    · rw [if_neg hk]
      apply registry_inv_log_heartbeat
      apply registry_inv_agree now s.2 _ s.1 _ hinv
      intro k hkk
      have : ¬ k = name := fun h => hk (h ▸ hkk)
      rw [if_neg this]
  | ensureRegistered name =>
    simp only [apply_reg_op]
    by_cases hk : name ∈ keys s.1
    · rw [if_pos hk, ensure_registered_of_mem now name s.1 hk]
      exact hinv
    · rw [if_neg hk]
      apply registry_inv_ensure_fresh now name s.2 _ s.1 hinv (by rw [if_pos rfl])
      intro k hkk
      have : ¬ k = name := fun h => hk (h ▸ hkk)
      rw [if_neg this]
  | pruneHistory retention =>
    exact registry_inv_prune now retention s.2 s.1 hinv
  | removeName name =>
    exact registry_inv_remove name now s.2 s.1 hinv

theorem registry_inv_run_trace (trace : List (Int × RegOp)) (t0 : Int)
    (s : Registry × (String → Int))
    (hchain : List.Chain (· ≤ ·) t0 (trace.map Prod.fst))
    (hinv : registry_inv t0 s.2 s.1) :
    registry_inv (trace_end_time t0 trace) (run_reg_trace s trace).2
      (run_reg_trace s trace).1 := by
  induction trace generalizing t0 s with
  | nil => exact hinv
  | cons p trace ih =>
    obtain ⟨now, op⟩ := p
    rw [List.map_cons, List.chain_cons] at hchain
    exact ih now (apply_reg_op now op s) hchain.2
      (registry_inv_apply_op now op s
        (registry_inv_mono t0 now s.2 s.1 hchain.1 hinv))

/-!
C6 — claim: for every sequence of registry operations executed with a
non-decreasing clock, every record keeps its heartbeat history sorted
ascending, with `lastHeartbeat` equal to the last history entry when the
history is non-empty, and to the record's creation time when it is empty.
Confirmed, with the creation time tracked by the ghost map threaded
through `apply_reg_op`.
-/

/-- C6: running any timed operation trace with non-decreasing clock values
from the empty registry, every resulting record has a sorted history,
`last_heartbeat` is the last history entry whenever the history is
non-empty, and equals the record's creation time when it is empty. -/
theorem c6_registry_trace_invariant (trace : List (Int × RegOp)) (t0 : Int)
    (hchain : List.Chain (· ≤ ·) t0 (trace.map Prod.fst)) :
    ∀ e ∈ (run_reg_trace (([], fun _ => t0)) trace).1,
      List.Sorted (· ≤ ·) e.2.heartbeat_history ∧
      (e.2.heartbeat_history ≠ [] →
        e.2.heartbeat_history.getLast? = some e.2.last_heartbeat) ∧
      (e.2.heartbeat_history = [] →
        e.2.last_heartbeat = (run_reg_trace (([], fun _ => t0)) trace).2 e.1) := by
  intro e he
  have h := registry_inv_run_trace trace t0 ([], fun _ => t0) hchain
    (by intro eq heq; simp at heq)
  obtain ⟨h1, _, _, h4, h5⟩ := h e he
  exact ⟨h1, h4, h5⟩

/-- C6 (witness): the trace `trace_fix` (register `a`, heartbeats at 5 and
7, register `b` at 9) run from clock 0; the resulting record of `b` has an
empty history and `last_heartbeat` equal to its creation time 9. -/
theorem c6_witness :
    List.Sorted (· ≤ ·) entry_b_fix.2.heartbeat_history ∧
      (entry_b_fix.2.heartbeat_history ≠ [] →
        entry_b_fix.2.heartbeat_history.getLast? =
          some entry_b_fix.2.last_heartbeat) ∧
      (entry_b_fix.2.heartbeat_history = [] →
        entry_b_fix.2.last_heartbeat =
          (run_reg_trace (([], fun _ => 0)) trace_fix).2 entry_b_fix.1) :=
  c6_registry_trace_invariant trace_fix 0
    (by norm_num [trace_fix, List.chain_cons]) entry_b_fix (by decide)

/-- C7 (witness): the unknown agent `zz` yields `[]` on `store_query_fix`,
and the matching event `event_lat_fix` is characterised by the iff. -/
theorem c7_witness :
    query_window store_query_fix "zz" "lat" 0 20 [] = [] ∧
    (event_lat_fix ∈ query_window store_query_fix "b1" "lat" 0 20 [("host", "x")] ↔
      ∃ evs, lookup_key "b1" store_query_fix = some evs ∧ event_lat_fix ∈ evs ∧
        event_lat_fix.event_id = "lat" ∧ (0 : Int) ≤ event_lat_fix.timestamp ∧
        event_lat_fix.timestamp ≤ 20 ∧
        ∀ kv ∈ [("host", "x")], lookup_key kv.1 event_lat_fix.tags = some kv.2) :=
  ⟨(c7_query_window_exact store_query_fix "zz" "lat" 0 20 []).1 (by decide),
   (c7_query_window_exact store_query_fix "b1" "lat" 0 20 [("host", "x")]).2
     event_lat_fix⟩

end AiSummarizer
